import Mathlib

/-!
Shallow embedding of the ECG signal-processing pipeline of `src/test1.py`
(repository `user7217/arduino-ecg`).

The per-tick `update` callback of the source is embedded as pure functions over
explicit state.  Real-valued quantities (timestamps from `time.time()`, filtered
samples, BPM values) are modelled over `ℚ`; raw samples are integers, as in the
source, where each serial line is parsed with `int(...)`.  Stateful pieces
(`data_buffer`, `bpm_history`, `rr_history_x`, `rr_history_y`, `beat_intervals`,
`last_beat_time`) become fields of an explicit state record threaded through the
tick function.  Fallible library calls guarded by `try/except` in the source are
embedded by their guarded semantics (e.g. `statistics.stdev` on fewer than two
points yields the `except` branch).  The IEEE-754 non-finite handling of
lines 144-145 is embedded separately over an explicit value type with `nan`/`inf`
constructors, since only the sanitisation logic (not float rounding) is at stake.
-/

set_option maxRecDepth 100000

namespace ECG

/-- Capacity of the rolling sample buffer, `window_size = 1500` (line 16). -/
def window_size : ℕ := 1500

/-- Lead-off rail threshold, `rail_threshold = 300000` (line 21). -/
def rail_threshold : ℤ := 300000

/-- Flatline standard-deviation threshold, `flatline_threshold = 0.1` (line 22). -/
def flatline_threshold : ℚ := 1 / 10

/-- Bounded FIFO push: `deque(maxlen := cap); d.append(x)`.  The element is
appended and, past capacity, the oldest entries are dropped from the front. -/
def pushMax {α : Type} (cap : ℕ) (xs : List α) (x : α) : List α :=
  if cap < (xs ++ [x]).length then (xs ++ [x]).drop ((xs ++ [x]).length - cap)
  else xs ++ [x]

/-- Clamp applied to every parsed sample before it is stored,
`val = max(-500000, min(500000, val))` (line 107). -/
def clampVal (v : ℤ) : ℤ := max (-500000) (min 500000 v)

/-- Ingest of one parsed serial sample into the rolling buffer
(lines 104-108): clamp, then `data_buffer.append(val)` with `maxlen = window_size`. -/
def ingestVal (buf : List ℤ) (v : ℤ) : List ℤ :=
  pushMax window_size buf (clampVal v)

/-- The short sub-window `list(data_buffer)[-50:]` used for the flatline test
(line 114), as rationals for the exact statistics. -/
def recentData (buf : List ℤ) : List ℚ :=
  (buf.drop (buf.length - 50)).map (fun z => (z : ℚ))

/-- Sample variance with Bessel correction, the square of `statistics.stdev`
(Python computes the exact fraction before converting to float). -/
def sampleVariance (xs : List ℚ) : ℚ :=
  ((xs.map (fun x => (x - xs.sum / (xs.length : ℚ)) ^ 2)).sum) / ((xs.length : ℚ) - 1)

/-- Rail test `abs(current_raw) > rail_threshold` on `data_buffer[-1]` (lines 115-117). -/
def is_railed (buf : List ℤ) : Bool :=
  decide (rail_threshold < |buf.getLastD 0|)

/-- Flatline test `statistics.stdev(recent_data) < flatline_threshold`
(lines 119-124).  `statistics.stdev` raises on fewer than two points and the
`except` branch then sets `is_flat = False`.  For nonnegative `c`,
`stdev xs < c ↔ sampleVariance xs < c ^ 2`, which avoids the irrational square
root while comparing the same exact quantity. -/
def is_flat (buf : List ℤ) : Bool :=
  if (recentData buf).length < 2 then false
  else decide (sampleVariance (recentData buf) < flatline_threshold ^ 2)

/-- Quality classification implied by lines 126-131: the rail test is examined
first, the flatline test only in its `else`. -/
inductive Quality where
  | RAILED
  | FLAT
  | OK
deriving DecidableEq

/-- Content of the on-screen status text that the tick writes (the BPM readout
and lead-off banners of lines 128-131 and 159-165).  `unchanged` covers the
paths that leave the text as it was. -/
inductive Display where
  | bpm (n : ℤ)
  | calc
  | leadsOffRail
  | leadsOffFlat
  | unchanged
deriving DecidableEq

/-- Insertion of one element into a `≤`-sorted rational list. -/
def insertQ (x : ℚ) : List ℚ → List ℚ
  | [] => [x]
  | y :: ys => if x ≤ y then x :: y :: ys else y :: insertQ x ys

/-- Insertion sort, the `sorted()` underlying `statistics.median` and
`np.percentile` (the sorted sequence of rationals is unique, so the sorting
algorithm is immaterial). -/
def sortQ : List ℚ → List ℚ
  | [] => []
  | x :: xs => insertQ x (sortQ xs)

/-- Exact `statistics.median`: middle element for odd length, mean of the two
middle elements for even length. -/
def medianQ (xs : List ℚ) : ℚ :=
  if xs.length % 2 = 1 then (sortQ xs).getD (xs.length / 2) 0
  else ((sortQ xs).getD (xs.length / 2 - 1) 0 + (sortQ xs).getD (xs.length / 2) 0) / 2

/-- Python `int(...)` on a rational: truncation toward zero. -/
def pyInt (q : ℚ) : ℤ :=
  if 0 ≤ q.num then ((q.num.toNat / q.den : ℕ) : ℤ)
  else -(((-q.num).toNat / q.den : ℤ))

/-- Floor of a nonnegative rational as a natural number (used for the
percentile interpolation index). -/
def qFloorNat (q : ℚ) : ℕ := q.num.toNat / q.den

/-- Exact `np.percentile(xs, 95)` with the default linear interpolation:
for a sorted sequence `s` of length `n`, the value at fractional rank
`h = 0.95 * (n - 1)`. -/
def percentile95 (xs : List ℚ) : ℚ :=
  (sortQ xs).getD (qFloorNat ((19 / 20 : ℚ) * ((xs.length : ℚ) - 1))) 0 +
    ((19 / 20 : ℚ) * ((xs.length : ℚ) - 1) -
        (qFloorNat ((19 / 20 : ℚ) * ((xs.length : ℚ) - 1)) : ℚ)) *
      ((sortQ xs).getD (qFloorNat ((19 / 20 : ℚ) * ((xs.length : ℚ) - 1)) + 1)
          ((sortQ xs).getD (qFloorNat ((19 / 20 : ℚ) * ((xs.length : ℚ) - 1))) 0) -
        (sortQ xs).getD (qFloorNat ((19 / 20 : ℚ) * ((xs.length : ℚ) - 1))) 0)

/-- Dot product of coefficient taps against a newest-first history list,
`Σ c i * hist i` over the overlap. -/
def dotHist (c : List ℚ) (hist : List ℚ) : ℚ :=
  (List.zipWith (fun a b => a * b) c hist).sum

/-- Worker for `scipy.signal.lfilter`: direct-form IIR recurrence
`a0 * y n = Σ b i * x (n-i) - Σ a (j+1) * y (n-j-1)`, carrying the already
consumed inputs and produced outputs newest-first. -/
def lfilterGo (b aTail : List ℚ) (a0 : ℚ) :
    List ℚ → List ℚ → List ℚ → List ℚ
  | _, yrev, [] => yrev.reverse
  | xrev, yrev, x :: rest =>
    lfilterGo b aTail a0 (x :: xrev)
      (((dotHist b (x :: xrev) - dotHist aTail yrev) / a0) :: yrev) rest

/-- `scipy.signal.lfilter(b, a, x)` (normalised by `a[0]`, which the `butter`
design returns as `1`). -/
def lfilter (b a : List ℚ) (x : List ℚ) : List ℚ :=
  lfilterGo b a.tail (a.headD 1) [] [] x

/-- `apply_filters` (lines 52-55): band-pass then notch, both via `lfilter`. -/
def apply_filters (data : List ℚ) (bb ab bn an : List ℚ) : List ℚ :=
  lfilter bn an (lfilter bb ab data)

/-- Mutable module-level state of `src/test1.py` threaded through the tick:
`data_buffer` (line 31), `last_beat_time` (line 35), `bpm_history` (line 32,
`maxlen = 10`), `beat_intervals` (line 36, a plain unbounded list),
`rr_history_x` and `rr_history_y` (lines 33-34, `maxlen = 50`). -/
structure PipeState where
  dataBuffer : List ℤ
  lastBeatTime : ℚ
  bpmHistory : List ℚ
  beatIntervals : List ℚ
  rrHistoryX : List ℚ
  rrHistoryY : List ℚ
deriving DecidableEq

/-- Result of one beat-detection step: the updated state, the accepted beat
(`some` of its timestamp exactly when a `"BEAT"` row is logged), and the status
text written. -/
structure StepOut where
  state : PipeState
  beat : Option ℚ
  display : Display
deriving DecidableEq

/-- BPM readout of lines 159-165: once `bpm_history` holds at least five
entries the text shows `int(statistics.median(bpm_history))`, otherwise
`"calc..."`. -/
def reportBpm (hist : List ℚ) : Display :=
  if 5 ≤ hist.length then Display.bpm (pyInt (medianQ hist))
  else Display.calc

/-- Beat detection and history update of lines 147-179, for the newest filtered
sample `currVal`, current time `currTime` and threshold `thresh`.  A candidate
fires when `curr_val > thresh` and more than `0.4 s` elapsed since
`last_beat_time`; it is accepted (histories updated, `"BEAT"` logged) when the
elapsed duration additionally lies strictly between `0.3 s` and `1.5 s`;
`last_beat_time` advances to `curr_time` on every candidate, accepted or not
(line 175 sits outside the inner `if`). -/
def beatStep (s : PipeState) (currVal currTime thresh : ℚ) : StepOut :=
  if thresh < currVal ∧ 2 / 5 < currTime - s.lastBeatTime then
    if 3 / 10 < currTime - s.lastBeatTime ∧ currTime - s.lastBeatTime < 3 / 2 then
      { state :=
          { s with
            bpmHistory := pushMax 10 s.bpmHistory (60 / (currTime - s.lastBeatTime))
            beatIntervals := s.beatIntervals ++ [currTime - s.lastBeatTime]
            rrHistoryX :=
              if s.beatIntervals ≠ [] then
                pushMax 50 s.rrHistoryX (s.beatIntervals.getLastD 0)
              else s.rrHistoryX
            rrHistoryY :=
              if s.beatIntervals ≠ [] then
                pushMax 50 s.rrHistoryY (currTime - s.lastBeatTime)
              else s.rrHistoryY
            lastBeatTime := currTime }
        beat := some currTime
        display := reportBpm (pushMax 10 s.bpmHistory (60 / (currTime - s.lastBeatTime))) }
    else
      { state := { s with lastBeatTime := currTime }
        beat := none
        display := Display.unchanged }
  else
    { state := s, beat := none, display := Display.unchanged }

/-- Observable output of one tick: the filtered window handed to the plots, the
accepted beat if any, the status text, and the quality classification (`none`
while the buffer has not yet reached the 100-sample analysis threshold). -/
structure TickOut where
  clean : List ℚ
  beat : Option ℚ
  display : Display
  quality : Option Quality
deriving DecidableEq

/-- One invocation of the analysis part of `update` (lines 111-181) after the
serial drain, parameterised by the filter coefficients produced at startup.
Nothing happens until the buffer exceeds 100 samples.  When the rail or the
flatline test fires, `bpm_history` is cleared and `clean = np.zeros(len(data_buffer))`
replaces the filter output, with no beat detection; otherwise the window is
filtered, the adaptive threshold `0.70 * percentile95` is formed and the beat
logic of `beatStep` runs.  (The `np.isnan` guard of line 142 never fires on the
integer buffer; the one on line 145 is embedded separately over `FVal`.) -/
def tick (bb ab bn an : List ℚ) (s : PipeState) (currTime : ℚ) :
    PipeState × TickOut :=
  if 100 < s.dataBuffer.length then
    if is_railed s.dataBuffer || is_flat s.dataBuffer then
      ({ s with bpmHistory := [] },
        { clean := List.replicate s.dataBuffer.length 0
          beat := none
          display := if is_railed s.dataBuffer then Display.leadsOffRail
            else Display.leadsOffFlat
          quality := some (if is_railed s.dataBuffer then Quality.RAILED
            else Quality.FLAT) })
    else
      ((beatStep s
          ((apply_filters (s.dataBuffer.map (fun z => (z : ℚ))) bb ab bn an).getLastD 0)
          currTime
          (percentile95 (apply_filters (s.dataBuffer.map (fun z => (z : ℚ))) bb ab bn an) *
            (7 / 10))).state,
        { clean := apply_filters (s.dataBuffer.map (fun z => (z : ℚ))) bb ab bn an
          beat :=
            (beatStep s
              ((apply_filters (s.dataBuffer.map (fun z => (z : ℚ))) bb ab bn an).getLastD 0)
              currTime
              (percentile95 (apply_filters (s.dataBuffer.map (fun z => (z : ℚ))) bb ab bn an) *
                (7 / 10))).beat
          display :=
            (beatStep s
              ((apply_filters (s.dataBuffer.map (fun z => (z : ℚ))) bb ab bn an).getLastD 0)
              currTime
              (percentile95 (apply_filters (s.dataBuffer.map (fun z => (z : ℚ))) bb ab bn an) *
                (7 / 10))).display
          quality := some Quality.OK })
  else
    (s, { clean := [], beat := none, display := Display.unchanged, quality := none })

/-- Iterated beat detection over a list of `(currVal, currTime, thresh)` ticks,
returning the final state and the timestamps of the accepted beats in order. -/
def runBeats (s : PipeState) : List (ℚ × ℚ × ℚ) → PipeState × List ℚ
  | [] => (s, [])
  | (v, t, th) :: rest =>
    ((runBeats (beatStep s v t th).state rest).1,
      (beatStep s v t th).beat.toList ++ (runBeats (beatStep s v t th).state rest).2)

/-- Value of one filtered sample as produced by the float pipeline, keeping the
IEEE-754 non-finite cases explicit: a finite value (its exact magnitude is
irrelevant to the sanitisation logic, kept as `ℚ`), `nan`, `+inf` or `-inf`. -/
inductive FVal where
  | fin (q : ℚ)
  | nan
  | inf
  | ninf
deriving DecidableEq

/-- Test mirrored from `np.isnan` on one value: true exactly on `nan`
(infinities are not NaN). -/
def FVal.isNanB : FVal → Bool
  | .nan => true
  | _ => false

/-- Finiteness of one value (`np.isfinite`): false on `nan`, `inf`, `ninf`. -/
def FVal.isFiniteB : FVal → Bool
  | .fin _ => true
  | _ => false

/-- Largest finite IEEE-754 double, `np.finfo(float).max`, as an exact rational. -/
def floatMax : ℚ := (17976931348623157 : ℚ) * 10 ^ 292

/-- `np.nan_to_num` on one value with its default arguments: `nan ↦ 0.0`,
`inf ↦ np.finfo(float).max`, `-inf ↦ -np.finfo(float).max`, finite unchanged. -/
def nan_to_num : FVal → FVal
  | .nan => .fin 0
  | .inf => .fin floatMax
  | .ninf => .fin (-floatMax)
  | .fin q => .fin q

/-- Filter-output sanitisation of line 145:
`if np.isnan(clean).any(): clean = np.nan_to_num(clean)`.  The whole window is
mapped through `np.nan_to_num` exactly when some entry is NaN; otherwise it is
returned untouched. -/
def sanitizeClean (clean : List FVal) : List FVal :=
  if clean.any FVal.isNanB then clean.map nan_to_num else clean

/-- Fixed notch quality factor `notch_quality = 30.0` (line 28). -/
def notch_quality : ℚ := 30

/-- Arguments that `create_filters` hands to the filter-design library:
the `butter` order and normalised band edges, and the `iirnotch` frequency,
quality and sample rate. -/
structure FilterRequest where
  bOrder : ℕ
  wLow : ℚ
  wHigh : ℚ
  notchW0 : ℚ
  notchQ : ℚ
  notchFs : ℚ
deriving DecidableEq

/-- `create_filters` (lines 46-50): computes `nyq = 0.5 * rate`, normalises the
band edges by `nyq` and forwards everything to `scipy.signal.butter` and
`scipy.signal.iirnotch`.  The function performs no validation of its own — no
parameter check, no error path — so the embedding is total and returns the
forwarded request for every input. -/
def create_filters (low high notch rate : ℚ) (ord : ℕ) : FilterRequest :=
  { bOrder := ord
    wLow := low / ((1 / 2) * rate)
    wHigh := high / ((1 / 2) * rate)
    notchW0 := notch
    notchQ := notch_quality
    notchFs := rate }

/-- Validity predicate written from the spec's words (§4.2), for comparison
with the source: configuration is valid when `lowcut < highcut`, both cutoffs
are below the Nyquist frequency `rate / 2`, and the order is at least 1. -/
def configValidSpec (low high rate : ℚ) (ord : ℕ) : Prop :=
  low < high ∧ low < rate / 2 ∧ high < rate / 2 ∧ 1 ≤ ord

/-- Arithmetic mean of a rational list, `sum / len` (the mean of the previous
RR intervals in the premature-beat rule). -/
def meanQ (xs : List ℚ) : ℚ := xs.sum / (xs.length : ℚ)

/-- Output of the spec-modelled premature-beat classification: the flag placed
on the beat event, the updated RR history, and whether a distinct alert event
was emitted for this beat. -/
structure RhythmOut where
  premature : Bool
  rrHistory : List ℚ
  alertEmitted : Bool
deriving DecidableEq

/-- Modelled from the spec: the RhythmAnalyzer premature-beat classification
(§4.5) is absent from `src/test1.py` — no premature flag, alert, or RR-mean
comparison appears there; the spec attributes it (the `PVC_DETECTED` status
tag of §6) to the repository's second near-identical source variant, which is
not under `src/`.  Per the spec's words: on an accepted beat, flag
`premature = true` iff the new interval is less than `0.8 ×` the mean of the
current RrHistory excluding the just-appended value (so of the previous,
non-empty history), append the interval to the bounded RR history, and emit a
distinct alert event exactly for premature beats. -/
def rhythmClassify (prevRr : List ℚ) (newInterval : ℚ) : RhythmOut :=
  { premature := decide (prevRr ≠ []) && decide (newInterval < (4 / 5) * meanQ prevRr)
    rrHistory := pushMax 50 prevRr newInterval
    alertEmitted :=
      decide (prevRr ≠ []) && decide (newInterval < (4 / 5) * meanQ prevRr) }

/-- Modelled from the spec: the HRV/SDNN computation (§4.5) is absent from
`src/test1.py` — `statistics.stdev` is used there only for the flatline test;
the spec attributes SDNN with its interpretation bands to the repository's
second source variant, not under `src/`.  Per the spec's words: once RrHistory
holds more than 10 entries, report the sample standard deviation of the
intervals expressed in milliseconds, otherwise report HRV as unavailable.
The value carried here is the square of the reported SDNN (the sample variance
in ms², via the intervals scaled by 1000); the square root of a rational is
irrational, and availability — which the claim is about — is identical. -/
def sdnnSquaredMs (rr : List ℚ) : Option ℚ :=
  if 10 < rr.length then some (sampleVariance (rr.map (fun x => x * 1000)))
  else none

/-- Helper: a bounded push keeps the just-appended element as the last entry of
the buffer (the capacity drop removes entries only from the front). -/
theorem pushMax_getLastD {α : Type} (cap : ℕ) (hc : 0 < cap) (xs : List α)
    (x d : α) : (pushMax cap xs x).getLastD d = x := by
  unfold pushMax
  split
  · next h =>
    have hk : (xs ++ [x]).length - cap ≤ xs.length := by
      simp only [List.length_append, List.length_singleton] at h ⊢
      omega
    rw [List.drop_append_of_le_length hk]
    simp
  · simp

/-- Helper: every stored clamped sample has magnitude at most `500000`. -/
theorem clampVal_abs_le (v : ℤ) : |clampVal v| ≤ 500000 := by
  unfold clampVal
  rw [abs_le]
  constructor
  · exact le_max_left _ _
  · exact max_le (by norm_num) (min_le_left _ _)

/-- Claim C1 (spec-modelled, the premature-beat logic is in the repository
variant absent from `src/`): for every accepted beat whose previous RrHistory
is non-empty, the beat is flagged `premature = true` iff the new RR interval is
less than `0.8 ×` the mean of the previous history (the just-appended value
excluded), and the distinct alert event is emitted exactly for premature
beats. -/
theorem c1_premature_iff (prevRr : List ℚ) (x : ℚ) (h : prevRr ≠ []) :
    ((rhythmClassify prevRr x).premature = true ↔ x < (4 / 5) * meanQ prevRr) ∧
    (rhythmClassify prevRr x).alertEmitted = (rhythmClassify prevRr x).premature := by
  unfold rhythmClassify
  simp [h]

/-- Witness for C1 at the concrete history `[1]` and interval `1/2`. -/
theorem c1_premature_iff_witness :
    ((rhythmClassify [1] (1 / 2)).premature = true ↔
        (1 / 2 : ℚ) < (4 / 5) * meanQ [1]) ∧
    (rhythmClassify [1] (1 / 2)).alertEmitted = (rhythmClassify [1] (1 / 2)).premature :=
  c1_premature_iff [1] (1 / 2) (by simp)

/-- Claim C6 (spec-modelled, the SDNN computation is in the repository variant
absent from `src/`): the HRV value is computed and reported exactly when
RrHistory holds more than 10 entries, and reported unavailable otherwise. -/
theorem c6_sdnn_availability (rr : List ℚ) :
    ((sdnnSquaredMs rr).isSome = true ↔ 10 < rr.length) ∧
    (rr.length ≤ 10 → sdnnSquaredMs rr = none) := by
  unfold sdnnSquaredMs
  constructor
  · split <;> simp_all
  · intro h
    rw [if_neg (by omega)]

/-- Witness for C6: a single-entry history reports HRV unavailable. -/
theorem c6_sdnn_availability_witness : sdnnSquaredMs [1] = none :=
  (c6_sdnn_availability [1]).2 (by simp)

/-- Claim C8 counterexample: a filter window consisting of one `+inf` (no NaN)
is returned to downstream consumers unchanged — the `np.isnan` guard of
line 145 does not fire on infinities, so a non-finite value is not replaced
with zero and reaches downstream, contradicting the claim. -/
theorem c8_inf_passthrough :
    sanitizeClean [FVal.inf] = [FVal.inf] ∧ FVal.inf.isFiniteB = false := by
  constructor
  · rfl
  · rfl

/-- Claim C8 as amended: no NaN ever reaches downstream — when the window
contains a NaN it is passed through `np.nan_to_num`, which maps NaN to `0` and
`±inf` to `±np.finfo(float).max` (not zero); a window without NaN is returned
unchanged, so infinities alone pass through unsanitised. -/
theorem c8_sanitized_no_nan (xs : List FVal) :
    (∀ y ∈ sanitizeClean xs, y.isNanB = false) ∧
    (xs.any FVal.isNanB = false → sanitizeClean xs = xs) ∧
    (xs.any FVal.isNanB = true → sanitizeClean xs = xs.map nan_to_num) := by
  refine ⟨?_, ?_, ?_⟩
  · intro y hy
    unfold sanitizeClean at hy
    by_cases h : xs.any FVal.isNanB
    · rw [if_pos h] at hy
      obtain ⟨z, _, rfl⟩ := List.mem_map.mp hy
      cases z <;> rfl
    · rw [if_neg h] at hy
      rw [Bool.not_eq_true, List.any_eq_false] at h
      have := h y hy
      simp_all
  · intro h
    unfold sanitizeClean
    rw [h]
    rfl
  · intro h
    unfold sanitizeClean
    rw [h]
    rfl

/-- Witness for C8 as amended, at a window holding an infinity and a finite
value but no NaN: nothing in the output is NaN and the window passes through
unchanged. -/
theorem c8_sanitized_no_nan_witness :
    (∀ y ∈ sanitizeClean [FVal.inf, FVal.fin 1], y.isNanB = false) ∧
    sanitizeClean [FVal.inf, FVal.fin 1] = [FVal.inf, FVal.fin 1] :=
  ⟨(c8_sanitized_no_nan [FVal.inf, FVal.fin 1]).1,
    (c8_sanitized_no_nan [FVal.inf, FVal.fin 1]).2.1 (by rfl)⟩

/-- Claim C9 counterexample: with `lowcut = 100 ≥ highcut = 75` and
`lowcut` at the Nyquist frequency (`rate = 200`), an invalid configuration by
the spec's own predicate, `create_filters` does not fail — it returns the
forwarded filter request normally (normalised edges `1` and `3/4`).  No
validation and no `ConfigError` exist in the source. -/
theorem c9_no_validation :
    ¬ configValidSpec 100 75 200 4 ∧
    create_filters 100 75 50 200 4 =
      { bOrder := 4, wLow := 1, wHigh := 3 / 4, notchW0 := 50, notchQ := 30,
        notchFs := 200 } := by
  constructor
  · intro h
    exact absurd h.1 (by norm_num)
  · unfold create_filters notch_quality
    norm_num

/-- Claim C9 as amended: `create_filters` performs no validation and never
fails — for every parameter set, valid or not, it returns the filter request
with the order unchanged, the band edges normalised by the Nyquist frequency
(`w * (rate/2)` recovers each cutoff whenever `rate ≠ 0`), and the notch
frequency, fixed quality `30` and sample rate forwarded unchanged. -/
theorem c9_create_filters_total (low high notch rate : ℚ) (ord : ℕ)
    (hr : rate ≠ 0) :
    (create_filters low high notch rate ord).wLow * (rate / 2) = low ∧
    (create_filters low high notch rate ord).wHigh * (rate / 2) = high ∧
    (create_filters low high notch rate ord).bOrder = ord ∧
    (create_filters low high notch rate ord).notchW0 = notch ∧
    (create_filters low high notch rate ord).notchQ = 30 ∧
    (create_filters low high notch rate ord).notchFs = rate := by
  unfold create_filters notch_quality
  refine ⟨?_, ?_, rfl, rfl, rfl, rfl⟩ <;> field_simp

/-- Witness for C9 as amended at the source's own startup parameters
`lowcut = 0.5`, `highcut = 75`, `notch = 50`, `fs = 200`, `order = 4`. -/
theorem c9_create_filters_total_witness :
    (create_filters (1 / 2) 75 50 200 4).wLow * ((200 : ℚ) / 2) = 1 / 2 ∧
    (create_filters (1 / 2) 75 50 200 4).wHigh * ((200 : ℚ) / 2) = 75 ∧
    (create_filters (1 / 2) 75 50 200 4).bOrder = 4 ∧
    (create_filters (1 / 2) 75 50 200 4).notchW0 = 50 ∧
    (create_filters (1 / 2) 75 50 200 4).notchQ = 30 ∧
    (create_filters (1 / 2) 75 50 200 4).notchFs = 200 :=
  c9_create_filters_total (1 / 2) 75 50 200 4 (by norm_num)

/-- Claim C10: every sample appended at ingest is clamped into
`[-500000, 500000]`, so every stored raw amplitude has magnitude at most
`500000`; the RAILED test reads the clamped value stored at the end of the
buffer; and any raw input with magnitude at least the clamp bound is stored as
exactly `±500000`, indistinguishable from an input of `±500000` itself. -/
theorem c10_clamp_invariant (buf : List ℤ) (v : ℤ)
    (hbuf : ∀ x ∈ buf, |x| ≤ 500000) :
    (∀ x ∈ ingestVal buf v, |x| ≤ 500000) ∧
    is_railed (ingestVal buf v) = decide (rail_threshold < |clampVal v|) ∧
    (500000 ≤ |v| → clampVal v = if 0 ≤ v then 500000 else -500000) := by
  refine ⟨?_, ?_, ?_⟩
  · intro x hx
    unfold ingestVal pushMax at hx
    have hx' : x ∈ buf ++ [clampVal v] := by
      split at hx
      · exact List.mem_of_mem_drop hx
      · exact hx
    rcases List.mem_append.mp hx' with h | h
    · exact hbuf x h
    · rw [List.mem_singleton.mp h]
      exact clampVal_abs_le v
  · unfold is_railed ingestVal
    rw [pushMax_getLastD window_size (by norm_num [window_size]) buf (clampVal v) 0]
  · intro hv
    by_cases h0 : 0 ≤ v
    · rw [if_pos h0]
      rw [abs_of_nonneg h0] at hv
      unfold clampVal
      rw [min_eq_left hv, max_eq_right (by norm_num)]
    · rw [if_neg h0]
      push_neg at h0
      rw [abs_of_neg h0] at hv
      unfold clampVal
      rw [min_eq_right (by omega), max_eq_left (by omega)]

/-- Claim C2: on every tick whose buffer is past the analysis threshold and is
classified low-quality (railed or flat), beat detection and rhythm analysis are
skipped entirely (the detection state is untouched except that the BPM history
is cleared, and no beat is emitted), the filtered output of the tick is the
all-zero window, and the rail test takes precedence over the flatline test in
the reported classification. -/
theorem c2_low_quality_gate (bb ab bn an : List ℚ) (s : PipeState) (t : ℚ)
    (hlen : 100 < s.dataBuffer.length)
    (hlq : is_railed s.dataBuffer = true ∨ is_flat s.dataBuffer = true) :
    (tick bb ab bn an s t).1 = { s with bpmHistory := [] } ∧
    (tick bb ab bn an s t).2.clean = List.replicate s.dataBuffer.length 0 ∧
    (tick bb ab bn an s t).2.beat = none ∧
    (is_railed s.dataBuffer = true →
      (tick bb ab bn an s t).2.quality = some Quality.RAILED) := by
  have hor : (is_railed s.dataBuffer || is_flat s.dataBuffer) = true := by
    rcases hlq with h | h <;> simp [h]
  unfold tick
  rw [if_pos hlen, if_pos hor]
  refine ⟨rfl, rfl, rfl, ?_⟩
  intro hr
  simp [hr]

/-- Witness for C2 at a 101-sample buffer railed at `400000` (also flat):
BPM history `[60]` is cleared, no beat is emitted, and the reported quality is
RAILED, exercising the rail-before-flat precedence. -/
theorem c2_low_quality_gate_witness :
    (tick [] [] [] [] ⟨List.replicate 101 400000, 0, [60], [], [], []⟩ 0).1 =
      { dataBuffer := List.replicate 101 400000, lastBeatTime := 0,
        bpmHistory := [], beatIntervals := [], rrHistoryX := [],
        rrHistoryY := [] } ∧
    (tick [] [] [] [] ⟨List.replicate 101 400000, 0, [60], [], [], []⟩ 0).2.beat =
      none ∧
    (tick [] [] [] [] ⟨List.replicate 101 400000, 0, [60], [], [], []⟩ 0).2.quality =
      some Quality.RAILED := by
  have h := c2_low_quality_gate [] [] [] []
    ⟨List.replicate 101 400000, 0, [60], [], [], []⟩ 0 (by simp)
    (Or.inl (by decide))
  exact ⟨h.1, h.2.2.1, h.2.2.2 (by decide)⟩

unseal Rat.add Rat.mul Rat.sub Rat.inv in
/-- Claim C4 counterexample: with `BpmHistory = [200/3, …]` (five entries) the
code reports `int(median) = 66`, but the median itself is `200/3 ≠ 66` — the
reported BPM is the integer truncation of the median, not the median. -/
theorem c4_reported_not_median :
    reportBpm [200 / 3, 200 / 3, 200 / 3, 200 / 3, 200 / 3] = Display.bpm 66 ∧
    medianQ [200 / 3, 200 / 3, 200 / 3, 200 / 3, 200 / 3] = 200 / 3 ∧
    ((66 : ℚ) ≠ 200 / 3) := by
  decide

/-- Claim C4 as amended: at every accepted beat, once the updated BpmHistory
holds at least 5 entries the reported BPM is the integer truncation (Python
`int`) of the median of BpmHistory; with fewer than 5 entries the BPM is
reported as not yet available (`"calc..."`). -/
theorem c4_reported_trunc_median (s : PipeState) (v t th : ℚ)
    (hbeat : (beatStep s v t th).beat.isSome = true) :
    (5 ≤ (beatStep s v t th).state.bpmHistory.length →
      (beatStep s v t th).display =
        Display.bpm (pyInt (medianQ (beatStep s v t th).state.bpmHistory))) ∧
    ((beatStep s v t th).state.bpmHistory.length < 5 →
      (beatStep s v t th).display = Display.calc) := by
  unfold beatStep at hbeat ⊢
  by_cases h1 : th < v ∧ 2 / 5 < t - s.lastBeatTime
  · rw [if_pos h1] at hbeat ⊢
    by_cases h2 : 3 / 10 < t - s.lastBeatTime ∧ t - s.lastBeatTime < 3 / 2
    · rw [if_pos h2]
      dsimp only
      constructor
      · intro h5
        unfold reportBpm
        rw [if_pos h5]
      · intro h5
        unfold reportBpm
        rw [if_neg (by omega)]
    · rw [if_neg h2] at hbeat
      simp at hbeat
  · rw [if_neg h1] at hbeat
    simp at hbeat

unseal Rat.add Rat.mul Rat.sub Rat.inv in
/-- Witness for C4 as amended: a beat accepted onto the four-entry history
`[70, 70, 70, 70]` yields the five-entry history `[70, 70, 70, 70, 60]` and
the readout `BPM: 70`, the truncated median. -/
theorem c4_reported_trunc_median_witness :
    (beatStep ⟨[], 0, [70, 70, 70, 70], [], [], []⟩ 1 1 0).display =
      Display.bpm 70 := by
  have h := (c4_reported_trunc_median ⟨[], 0, [70, 70, 70, 70], [], [], []⟩ 1 1 0
    (by decide)).1 (by decide)
  rw [h]
  decide

unseal Rat.add Rat.mul Rat.sub Rat.inv in
/-- Claim C5 counterexample: with a full bootstrap history `[70, …]` of five
entries (median `70`), a beat of duration `0.5 s` (instant BPM `120`, deviating
`50 > 30` from the median) is still appended to BpmHistory — the code applies
no median-deviation check, only the duration band. -/
theorem c5_no_median_deviation_check :
    (beatStep ⟨[], 0, [70, 70, 70, 70, 70], [], [], []⟩ 1 (1 / 2) 0).state.bpmHistory =
      [70, 70, 70, 70, 70, 120] ∧
    5 ≤ ([70, 70, 70, 70, 70] : List ℚ).length ∧
    medianQ [70, 70, 70, 70, 70] = 70 ∧
    ¬ ((120 : ℚ) - 70 ≤ 30) := by
  decide

/-- Claim C5 as amended: a new instant BPM is accepted into BpmHistory exactly
when the candidate fires (`curr_val > thresh` after the refractory gap) and the
beat duration lies strictly between `0.3 s` and `1.5 s`; no comparison against
the median of BpmHistory is involved, and acceptance appends
`60 / duration` to the bounded history. -/
theorem c5_accept_band (s : PipeState) (v t th : ℚ) :
    ((beatStep s v t th).beat.isSome = true ↔
      th < v ∧ 2 / 5 < t - s.lastBeatTime ∧ 3 / 10 < t - s.lastBeatTime ∧
        t - s.lastBeatTime < 3 / 2) ∧
    ((beatStep s v t th).beat.isSome = true →
      (beatStep s v t th).state.bpmHistory =
        pushMax 10 s.bpmHistory (60 / (t - s.lastBeatTime))) := by
  unfold beatStep
  by_cases h1 : th < v ∧ 2 / 5 < t - s.lastBeatTime
  · rw [if_pos h1]
    by_cases h2 : 3 / 10 < t - s.lastBeatTime ∧ t - s.lastBeatTime < 3 / 2
    · rw [if_pos h2]
      dsimp only
      constructor
      · simp only [Option.isSome_some, true_iff]
        exact ⟨h1.1, h1.2, h2.1, h2.2⟩
      · intro _
        rfl
    · rw [if_neg h2]
      dsimp only
      constructor
      · constructor
        · intro h
          simp at h
        · intro hc
          exact absurd ⟨hc.2.2.1, hc.2.2.2⟩ h2
      · intro hc
        simp at hc
  · rw [if_neg h1]
    dsimp only
    constructor
    · constructor
      · intro h
        simp at h
      · intro hc
        exact absurd ⟨hc.1, hc.2.1⟩ h1
    · intro hc
      simp at hc

unseal Rat.add Rat.mul Rat.sub Rat.inv in
/-- Witness for C5 as amended: a candidate of duration `1 s` on an empty
history is accepted and appends instant BPM `60`. -/
theorem c5_accept_band_witness :
    (beatStep ⟨[], 0, [], [], [], []⟩ 1 1 0).state.bpmHistory =
      pushMax 10 [] 60 := by
  have h := (c5_accept_band ⟨[], 0, [], [], [], []⟩ 1 1 0).2 (by decide)
  rw [h]
  decide

/-- Helper: each beat-detection step either leaves the state untouched with no
beat, or was a threshold-crossing candidate — more than the refractory gap past
`last_beat_time` — after which `last_beat_time` equals the candidate time, the
emitted beat (if any) carrying exactly that time. -/
theorem beatStep_lbt (s : PipeState) (v t th : ℚ) :
    ((beatStep s v t th).state = s ∧ (beatStep s v t th).beat = none) ∨
    ((beatStep s v t th).state.lastBeatTime = t ∧ 2 / 5 < t - s.lastBeatTime ∧
      ((beatStep s v t th).beat = none ∨ (beatStep s v t th).beat = some t)) := by
  unfold beatStep
  by_cases h1 : th < v ∧ 2 / 5 < t - s.lastBeatTime
  · rw [if_pos h1]
    by_cases h2 : 3 / 10 < t - s.lastBeatTime ∧ t - s.lastBeatTime < 3 / 2
    · rw [if_pos h2]
      exact Or.inr ⟨rfl, h1.2, Or.inr rfl⟩
    · rw [if_neg h2]
      exact Or.inr ⟨rfl, h1.2, Or.inl rfl⟩
  · rw [if_neg h1]
    exact Or.inl ⟨rfl, rfl⟩

/-- Helper: along any tick sequence the accepted-beat timestamps are pairwise
at least the refractory period apart, and each exceeds the starting
`last_beat_time` by more than the refractory period. -/
theorem runBeats_spacing (ticks : List (ℚ × ℚ × ℚ)) : ∀ s : PipeState,
    List.Pairwise (fun a b => 2 / 5 ≤ b - a) (runBeats s ticks).2 ∧
    ∀ x ∈ (runBeats s ticks).2, s.lastBeatTime + 2 / 5 < x := by
  induction ticks with
  | nil =>
    intro s
    simp [runBeats]
  | cons tk rest ih =>
    intro s
    obtain ⟨v, t, th⟩ := tk
    have hrec := ih (beatStep s v t th).state
    simp only [runBeats]
    rcases beatStep_lbt s v t th with ⟨hst, hb⟩ | ⟨hlbt, hgt, hb⟩
    · rw [hb, hst]
      simp only [Option.toList_none, List.nil_append]
      exact ih s
    · rw [hlbt] at hrec
      rcases hb with hb | hb
      · rw [hb]
        simp only [Option.toList_none, List.nil_append]
        refine ⟨hrec.1, ?_⟩
        intro x hx
        have := hrec.2 x hx
        linarith
      · rw [hb]
        simp only [Option.toList_some, List.singleton_append]
        refine ⟨List.pairwise_cons.mpr ⟨?_, hrec.1⟩, ?_⟩
        · intro x hx
          have := hrec.2 x hx
          linarith
        · intro x hx
          rcases List.mem_cons.mp hx with rfl | hx
          · linarith
          · have := hrec.2 x hx
            linarith

/-- Claim C3: along every tick sequence, accepted beats are pairwise at least
the refractory period (`0.4 s`) apart, and `last_beat_time` advances to the
candidate time on every threshold-crossing candidate (line 175 sits outside the
acceptance test), so no two beats are ever accepted closer together. -/
theorem c3_refractory_spacing :
    (∀ (s : PipeState) (ticks : List (ℚ × ℚ × ℚ)),
      List.Pairwise (fun a b => 2 / 5 ≤ b - a) (runBeats s ticks).2) ∧
    (∀ (s : PipeState) (v t th : ℚ), th < v → 2 / 5 < t - s.lastBeatTime →
      (beatStep s v t th).state.lastBeatTime = t) := by
  constructor
  · intro s ticks
    exact (runBeats_spacing ticks s).1
  · intro s v t th h1 h2
    unfold beatStep
    rw [if_pos ⟨h1, h2⟩]
    by_cases h3 : 3 / 10 < t - s.lastBeatTime ∧ t - s.lastBeatTime < 3 / 2
    · rw [if_pos h3]
    · rw [if_neg h3]

unseal Rat.add Rat.mul Rat.sub Rat.inv in
/-- Witness for C3: a concrete candidate crossing the threshold one second
after the last beat advances `last_beat_time` to the candidate time. -/
theorem c3_refractory_spacing_witness :
    (beatStep ⟨[], 0, [], [], [], []⟩ 1 1 0).state.lastBeatTime = 1 :=
  c3_refractory_spacing.2 ⟨[], 0, [], [], [], []⟩ 1 1 0 (by norm_num) (by norm_num)

unseal Rat.add Rat.mul Rat.sub Rat.inv in
/-- Claim C7 counterexample: after 51 accepted beats (candidate value `1`
against threshold `0` at times `1, 2, …, 51`, every duration `1 s`), the
RR-interval list `beat_intervals` holds 51 entries — it is a plain unbounded
Python list, never evicted, so its length exceeds the claimed capacity bound
of at most 50. -/
theorem c7_beat_intervals_unbounded :
    50 <
      ((runBeats ⟨[], 0, [], [], [], []⟩
            ((List.range 51).map
              (fun i => ((1 : ℚ), (i : ℚ) + 1, (0 : ℚ))))).1.beatIntervals).length := by
  decide

/-- Helper: a bounded push never grows a buffer past its capacity once the
buffer is within capacity. -/
theorem pushMax_length_le {α : Type} (cap : ℕ) (xs : List α) (x : α)
    (h : xs.length ≤ cap) : (pushMax cap xs x).length ≤ cap := by
  unfold pushMax
  split
  · next hc =>
    simp only [List.length_drop]
    omega
  · next hc =>
    simp only [not_lt] at hc
    exact hc

/-- Helper: one beat-detection step grows `beat_intervals` by exactly the
number of beats it emits, and each Poincaré pair history is either untouched or
replaced by a bounded push onto itself. -/
theorem beatStep_history (s : PipeState) (v t th : ℚ) :
    (beatStep s v t th).state.beatIntervals.length =
      s.beatIntervals.length + (beatStep s v t th).beat.toList.length ∧
    ((beatStep s v t th).state.rrHistoryX = s.rrHistoryX ∨
      ∃ a, (beatStep s v t th).state.rrHistoryX = pushMax 50 s.rrHistoryX a) ∧
    ((beatStep s v t th).state.rrHistoryY = s.rrHistoryY ∨
      ∃ a, (beatStep s v t th).state.rrHistoryY = pushMax 50 s.rrHistoryY a) := by
  unfold beatStep
  by_cases h1 : th < v ∧ 2 / 5 < t - s.lastBeatTime
  · rw [if_pos h1]
    by_cases h2 : 3 / 10 < t - s.lastBeatTime ∧ t - s.lastBeatTime < 3 / 2
    · rw [if_pos h2]
      dsimp only
      refine ⟨by simp, ?_, ?_⟩
      · by_cases hbi : s.beatIntervals ≠ []
        · rw [if_pos hbi]
          exact Or.inr ⟨_, rfl⟩
        · rw [if_neg hbi]
          exact Or.inl rfl
      · by_cases hbi : s.beatIntervals ≠ []
        · rw [if_pos hbi]
          exact Or.inr ⟨_, rfl⟩
        · rw [if_neg hbi]
          exact Or.inl rfl
    · rw [if_neg h2]
      exact ⟨by simp, Or.inl rfl, Or.inl rfl⟩
  · rw [if_neg h1]
    exact ⟨by simp, Or.inl rfl, Or.inl rfl⟩

/-- Helper: along any tick sequence, `beat_intervals` grows by exactly one
entry per accepted beat, while each Poincaré pair history stays within the
capacity 50 once it starts within it. -/
theorem runBeats_history (ticks : List (ℚ × ℚ × ℚ)) : ∀ s : PipeState,
    (runBeats s ticks).1.beatIntervals.length =
      s.beatIntervals.length + (runBeats s ticks).2.length ∧
    (s.rrHistoryX.length ≤ 50 → (runBeats s ticks).1.rrHistoryX.length ≤ 50) ∧
    (s.rrHistoryY.length ≤ 50 → (runBeats s ticks).1.rrHistoryY.length ≤ 50) := by
  induction ticks with
  | nil =>
    intro s
    simp [runBeats]
  | cons tk rest ih =>
    intro s
    obtain ⟨v, t, th⟩ := tk
    have hstep := beatStep_history s v t th
    have hrec := ih (beatStep s v t th).state
    simp only [runBeats]
    refine ⟨?_, ?_, ?_⟩
    · rw [List.length_append, hrec.1, hstep.1]
      omega
    · intro h50
      apply hrec.2.1
      rcases hstep.2.1 with h | ⟨a, h⟩
      · rw [h]
        exact h50
      · rw [h]
        exact pushMax_length_le 50 s.rrHistoryX a h50
    · intro h50
      apply hrec.2.2
      rcases hstep.2.2 with h | ⟨a, h⟩
      · rw [h]
        exact h50
      · rw [h]
        exact pushMax_length_le 50 s.rrHistoryY a h50

/-- Claim C7 as amended: the bounded RR structures of the source are the
Poincaré pair histories `rr_history_x`/`rr_history_y`, FIFO deques of capacity
50 whose length never exceeds 50 once within capacity; the full interval list
`beat_intervals` is unbounded, growing by exactly one entry per accepted
beat. -/
theorem c7_history_bounds (s : PipeState) (ticks : List (ℚ × ℚ × ℚ))
    (hx : s.rrHistoryX.length ≤ 50) (hy : s.rrHistoryY.length ≤ 50) :
    (runBeats s ticks).1.rrHistoryX.length ≤ 50 ∧
    (runBeats s ticks).1.rrHistoryY.length ≤ 50 ∧
    (runBeats s ticks).1.beatIntervals.length =
      s.beatIntervals.length + (runBeats s ticks).2.length := by
  have h := runBeats_history ticks s
  exact ⟨h.2.1 hx, h.2.2 hy, h.1⟩

unseal Rat.add Rat.mul Rat.sub Rat.inv in
/-- Witness for C7 as amended at one accepted beat from the empty state. -/
theorem c7_history_bounds_witness :
    (runBeats ⟨[], 0, [], [], [], []⟩ [(1, 1, 0)]).1.rrHistoryX.length ≤ 50 ∧
    (runBeats ⟨[], 0, [], [], [], []⟩ [(1, 1, 0)]).1.rrHistoryY.length ≤ 50 ∧
    (runBeats ⟨[], 0, [], [], [], []⟩ [(1, 1, 0)]).1.beatIntervals.length =
      ([] : List ℚ).length + (runBeats ⟨[], 0, [], [], [], []⟩ [(1, 1, 0)]).2.length :=
  c7_history_bounds ⟨[], 0, [], [], [], []⟩ [(1, 1, 0)] (by simp) (by simp)

/-- Witness for C10 at a buffer `[0]` and the over-range raw input `700000`:
every stored value stays within the clamp bound and the stored value is exactly
`500000`. -/
theorem c10_clamp_invariant_witness :
    (∀ x ∈ ingestVal [0] 700000, |x| ≤ 500000) ∧ clampVal 700000 = 500000 := by
  have h := c10_clamp_invariant [0] 700000 (by intro x hx; simp_all)
  refine ⟨h.1, ?_⟩
  have h3 := h.2.2 (by norm_num)
  simpa using h3

end ECG
